import Mathlib

set_option maxRecDepth 100000

/-!
Verification of the CSI capture pipeline in `src/main/reciv.c`:
the capture callback `wifi_csi_cb` (interrupt-context producer), the
shared ring buffer `g_buffer` with cursors `g_write_head` / `g_read_head`,
and one iteration of the drain loop `usb_flush_task`.

The backing store is modelled as a total function `Nat → Nat` so that
out-of-bounds stores are observable; compile-time constants of the C file
(`BUFFER_SIZE`, the staging-chunk size `sizeof(chunk)` and the minimum
send threshold `1024`) are parameters of the embedded operations, with
the C values recorded as definitions.
-/

/-- Little-endian byte encoding: `toLE w v` is the `w`-byte little-endian
encoding of `v`, each byte reduced mod 256 (mirroring C integer truncation
on a little-endian target). -/
def toLE : Nat → Nat → List Nat
  | 0, _ => []
  | w + 1, v => v % 256 :: toLE w (v / 256)

/-- Little-endian byte decoding, the offline-decoder side of the wire
contract. -/
def decodeLE : List Nat → Nat
  | [] => 0
  | b :: bs => b + 256 * decodeLE bs

/-- The `MAGIC_BYTE` constant of reciv.c (0xFAFA). -/
def MAGIC : Nat := 0xFAFA

/-- Size of the packed `packet_header_t` struct: 2 + 2 + 1 + 1 + 4. -/
def HEADER_SIZE : Nat := 10

/-- The `BUFFER_SIZE` constant of reciv.c. -/
def BUFFER_SIZE : Nat := 1024 * 120

/-- The staging-buffer size `sizeof(chunk)` of `usb_flush_task`. -/
def CHUNK_SIZE : Nat := 8192

/-- The minimum send threshold hard-coded in `usb_flush_task`
(`available > 1024`). -/
def SEND_THRESHOLD : Nat := 1024

/-- Serialization of the packed `packet_header_t` struct of reciv.c on its
little-endian target: `magic` (2 bytes), `len` (2 bytes), `rssi` (1 byte,
two's complement), `channel` (1 byte), `timestamp` (4 bytes), no padding. -/
def encodeHeader (len : Nat) (rssi : Int) (channel : Nat) (timestamp : Nat) : List Nat :=
  toLE 2 MAGIC ++ toLE 2 len ++ [(rssi % 256).toNat] ++ [channel % 256] ++ toLE 4 timestamp

/-- The part of `wifi_csi_info_t` that `wifi_csi_cb` reads: the payload
pointer (`none` models a NULL `buf`), the `len` field, and the
`rx_ctrl.rssi` / `rx_ctrl.channel` metadata. -/
structure CsiInfo where
  buf : Option (Nat → Nat)
  len : Nat
  rssi : Int
  channel : Nat

/-- The shared state of reciv.c: `g_buffer` (as a total byte memory, so
stores past `BUFFER_SIZE` are observable), `g_write_head`, `g_read_head`
and `g_packet_count`. -/
structure RxState where
  buffer : Nat → Nat
  writeHead : Nat
  readHead : Nat
  packetCount : Nat

/-- The state at startup: zeroed storage, both cursors 0, counter 0. -/
def initState : RxState := ⟨fun _ => 0, 0, 0, 0⟩

/-- Contiguous copy of `bs` into memory `m` starting at absolute index
`start` (the effect of `memcpy` / `fast_copy_asm` into `&g_buffer[start]`). -/
def writeBytesAt (m : Nat → Nat) (start : Nat) (bs : List Nat) : Nat → Nat :=
  fun i => if start ≤ i ∧ i - start < bs.length then bs.getD (i - start) 0 else m i

/-- Contiguous read of `n` bytes from memory `m` starting at `start`. -/
def readBytes (m : Nat → Nat) (start n : Nat) : List Nat :=
  (List.range n).map fun j => m (start + j)

/-- The CSI capture callback `wifi_csi_cb` of reciv.c, with the buffer
capacity `cap` as a parameter (reciv.c instantiates `cap = BUFFER_SIZE`)
and the `esp_timer_get_time()` value passed as `now`.  Mirrors the C line
by line: validation, unconditional `g_packet_count++`, the
`next_head == g_read_head` room check, then either the one-pass copy
(header then payload) or the wraparound branch that copies only the
header. -/
def wifi_csi_cb (cap : Nat) (info : Option CsiInfo) (now : Nat) (st : RxState) : RxState :=
  match info with
  | none => st
  | some i =>
    match i.buf with
    | none => st
    | some src =>
      if i.len = 0 then st
      else
        let data_len := i.len % 65536
        let total_len := (HEADER_SIZE + data_len) % 65536
        let next_head := (st.writeHead + total_len) % cap
        let st1 : RxState := { st with packetCount := st.packetCount + 1 }
        if next_head = st1.readHead then st1
        else
          let header := encodeHeader data_len i.rssi i.channel now
          if st1.writeHead + total_len ≤ cap then
            { st1 with
              buffer := writeBytesAt (writeBytesAt st1.buffer st1.writeHead header)
                          (st1.writeHead + HEADER_SIZE) (readBytes src 0 data_len)
              writeHead := next_head }
          else
            { st1 with
              buffer := writeBytesAt st1.buffer st1.writeHead header
              writeHead := next_head }

/-- The available-byte computation of `usb_flush_task`:
`(w >= r) ? w - r : BUFFER_SIZE - r + w`. -/
def availableBytes (cap : Nat) (st : RxState) : Nat :=
  if st.writeHead ≥ st.readHead then st.writeHead - st.readHead
  else cap - st.readHead + st.writeHead

/-- The chunk length `send_len` computed by `usb_flush_task`: clamp the
available bytes to the staging-buffer size, then clip so the chunk does
not cross the physical end of the backing store. -/
def sendLen (cap chunkSize : Nat) (st : RxState) : Nat :=
  let available := availableBytes cap st
  let send0 := if available > chunkSize then chunkSize else available
  if st.readHead + send0 > cap then cap - st.readHead else send0

/-- Result of one iteration of the drain loop: the successor state, the
chunk offered to the transport, and the bytes the transport accepted. -/
structure FlushOut where
  state : RxState
  offered : List Nat
  sent : List Nat

/-- One iteration of the drain loop `usb_flush_task` of reciv.c, with the
capacity, threshold and staging size as parameters (reciv.c instantiates
`BUFFER_SIZE`, `SEND_THRESHOLD`, `CHUNK_SIZE`) and `accepted` the byte
count returned by `usb_serial_jtag_write_bytes` (the transport accepts at
most the offered length).  If not enough bytes are available the
iteration sleeps; otherwise it stages a contiguous chunk at the read
cursor and advances `g_read_head` by exactly the accepted count. -/
def usb_flush_iter (cap threshold chunkSize accepted : Nat) (st : RxState) : FlushOut :=
  let available := availableBytes cap st
  if available > threshold then
    let send_len := sendLen cap chunkSize st
    let chunk := readBytes st.buffer st.readHead send_len
    if accepted > 0 then
      ⟨{ st with readHead := (st.readHead + accepted) % cap }, chunk, chunk.take accepted⟩
    else ⟨st, chunk, []⟩
  else ⟨st, [], []⟩

/-- Cyclic read of `n` bytes starting at offset `start` modulo `cap`. -/
def cyclicRead (cap : Nat) (m : Nat → Nat) (start n : Nat) : List Nat :=
  (List.range n).map fun j => m ((start + j) % cap)

/-- The logical (occupied) content of the ring buffer: the cyclic byte
range from the read cursor of length `availableBytes`. -/
def logicalBytes (cap : Nat) (st : RxState) : List Nat :=
  cyclicRead cap st.buffer st.readHead (availableBytes cap st)

/-- Whether `wifi_csi_cb` treats the event as well-formed (non-null
descriptor and payload pointer, nonzero length). -/
def validInfo (i : CsiInfo) : Bool :=
  i.buf.isSome && decide (i.len ≠ 0)

/-- Whether the room check of `wifi_csi_cb` lets the frame through at
state `st`: well-formed and the advanced write head does not land exactly
on the read head. -/
def appendAccepted (cap : Nat) (i : CsiInfo) (st : RxState) : Bool :=
  validInfo i &&
    decide ((st.writeHead + (HEADER_SIZE + i.len % 65536) % 65536) % cap ≠ st.readHead)

/-- The bytes of the frame built for event `i` at time `now`: encoded
header immediately followed by the payload. -/
def frameBytesOf (i : CsiInfo) (now : Nat) : List Nat :=
  match i.buf with
  | some src => encodeHeader (i.len % 65536) i.rssi i.channel now ++ readBytes src 0 (i.len % 65536)
  | none => []

/-- One interleaving step of the pipeline: either a hardware CSI event
(producer) or one drain-loop iteration in which the transport accepts
`accepted` bytes (consumer). -/
inductive Op where
  | append (i : CsiInfo) (now : Nat)
  | drain (accepted : Nat)

/-- Outcome of running a trace of operations: final state, the byte lists
of the frames the room check accepted (in acceptance order), the bytes the
transport accepted (in transmission order), and the count of well-formed
frames the room check rejected. -/
structure RunOut where
  state : RxState
  accepted : List (List Nat)
  observed : List Nat
  rejected : Nat

/-- Run a trace of producer/consumer operations from state `st`. -/
def run (cap threshold chunkSize : Nat) : RxState → List Op → RunOut
  | st, [] => ⟨st, [], [], 0⟩
  | st, Op.append i now :: ops =>
    let rest := run cap threshold chunkSize (wifi_csi_cb cap (some i) now st) ops
    if appendAccepted cap i st then
      { rest with accepted := frameBytesOf i now :: rest.accepted }
    else if validInfo i then { rest with rejected := rest.rejected + 1 }
    else rest
  | st, Op.drain a :: ops =>
    let fo := usb_flush_iter cap threshold chunkSize a st
    let rest := run cap threshold chunkSize fo.state ops
    { rest with observed := fo.sent ++ rest.observed }

/-- Side conditions on one operation at state `st` under which the
reference code is free of its two write-path defects: an append must fit
before the physical end of the store (no wraparound split) and must fit in
the free space (no overrun of the read cursor); a drain's accepted count
must not exceed the offered chunk (the transport's contract). -/
def goodOp (cap threshold chunkSize : Nat) (st : RxState) : Op → Bool
  | Op.append i _ =>
    match i.buf with
    | none => true
    | some _ =>
      if i.len = 0 then true
      else
        decide (i.len ≤ 65525) &&
        decide (st.writeHead + (HEADER_SIZE + i.len) ≤ cap) &&
        decide (availableBytes cap st + (HEADER_SIZE + i.len) ≤ cap)
  | Op.drain a =>
    if availableBytes cap st > threshold then decide (a ≤ sendLen cap chunkSize st)
    else true

/-- State successor of one operation (the state component of `run`). -/
def stepState (cap threshold chunkSize : Nat) (op : Op) (st : RxState) : RxState :=
  match op with
  | Op.append i now => wifi_csi_cb cap (some i) now st
  | Op.drain a => (usb_flush_iter cap threshold chunkSize a st).state

/-- The side conditions of `goodOp` along a whole trace. -/
def goodTrace (cap threshold chunkSize : Nat) : RxState → List Op → Bool
  | _, [] => true
  | st, op :: ops =>
    goodOp cap threshold chunkSize st op &&
      goodTrace cap threshold chunkSize (stepState cap threshold chunkSize op st) ops

/-- Iterate the capture callback `n` times with the same event. -/
def appendIter (cap : Nat) (i : CsiInfo) (now : Nat) : Nat → RxState → RxState
  | 0, st => st
  | n + 1, st => appendIter cap i now n (wifi_csi_cb cap (some i) now st)

/-- The 20-byte test frame of the capacity-1024 scenario: a CSI event with
a 10-byte payload, giving header (10) + payload (10) = 20 bytes. -/
def c1ev : CsiInfo := ⟨some fun _ => 5, 10, -42, 6⟩

/-- Two large events driving the write cursor to 122875 = BUFFER_SIZE - 5,
then a minimal event whose wraparound header store runs past the end of
the backing array. -/
def c3evA : CsiInfo := ⟨some fun _ => 1, 61427, -42, 6⟩

def c3evB : CsiInfo := ⟨some fun _ => 2, 61428, -42, 6⟩

def c3evC : CsiInfo := ⟨some fun _ => 9, 1, -42, 3⟩

/-- State reached from startup by the three captures above (all accepted
by the room check). -/
def c3state : RxState :=
  wifi_csi_cb BUFFER_SIZE (some c3evC) 0
    (wifi_csi_cb BUFFER_SIZE (some c3evB) 0
      (wifi_csi_cb BUFFER_SIZE (some c3evA) 0 initState))

/-- A 40-byte frame (30-byte payload of sevens) for the FIFO trace. -/
def c4ev : CsiInfo := ⟨some fun _ => 7, 30, -50, 6⟩

/-- Capacity-64 trace: append a 40-byte frame, drain it fully, append a
second 40-byte frame that straddles the physical end (its payload is
dropped by the wraparound branch), drain the 24 bytes before the end. -/
def c4ops : List Op := [Op.append c4ev 0, Op.drain 40, Op.append c4ev 0, Op.drain 24]

def c4out : RunOut := run 64 4 8192 initState c4ops

/-- A well-behaved trace (contiguous, in-room appends with a partial
drain in between) used to instantiate the amended FIFO theorem. -/
def c4wops : List Op :=
  [Op.append ⟨some fun j => j + 1, 5, -10, 6⟩ 0, Op.drain 10,
   Op.append ⟨some fun j => j + 2, 3, -11, 6⟩ 1]

def c4wout : RunOut := run 64 4 8192 initState c4wops

/-! Basic lemmas about the byte codec and the memory primitives. -/

theorem toLE_length (w : Nat) : ∀ v, (toLE w v).length = w := by
  induction w with
  | zero => intro v; rfl
  | succ w ih => intro v; simp [toLE, ih]

theorem decodeLE_toLE (w : Nat) : ∀ v, decodeLE (toLE w v) = v % 256 ^ w := by
  induction w with
  | zero => intro v; simp [toLE, decodeLE, Nat.mod_one]
  | succ w ih =>
    intro v
    have h256 : (256 : Nat) ^ (w + 1) = 256 * 256 ^ w := by ring
    rw [toLE, decodeLE, ih, h256, Nat.mod_mul]

theorem encodeHeader_length (len : Nat) (rssi : Int) (channel timestamp : Nat) :
    (encodeHeader len rssi channel timestamp).length = 10 := by
  simp [encodeHeader, toLE_length]

theorem writeBytesAt_lt (m : Nat → Nat) (start : Nat) (bs : List Nat) (i : Nat)
    (h : i < start) : writeBytesAt m start bs i = m i := by
  unfold writeBytesAt
  rw [if_neg]
  omega

theorem writeBytesAt_ge (m : Nat → Nat) (start : Nat) (bs : List Nat) (i : Nat)
    (h : start + bs.length ≤ i) : writeBytesAt m start bs i = m i := by
  unfold writeBytesAt
  rw [if_neg]
  omega

theorem writeBytesAt_in (m : Nat → Nat) (start : Nat) (bs : List Nat) (i : Nat)
    (h1 : start ≤ i) (h2 : i - start < bs.length) :
    writeBytesAt m start bs i = bs.getD (i - start) 0 := by
  unfold writeBytesAt
  rw [if_pos ⟨h1, h2⟩]

theorem readBytes_length (m : Nat → Nat) (start n : Nat) : (readBytes m start n).length = n := by
  simp [readBytes]

theorem readBytes_getD (m : Nat → Nat) (start n j : Nat) (h : j < n) :
    (readBytes m start n).getD j 0 = m (start + j) := by
  rw [readBytes, List.getD_eq_getElem?_getD, List.getElem?_map, List.getElem?_range h]
  rfl

theorem readBytes_take (m : Nat → Nat) (start n k : Nat) :
    (readBytes m start n).take k = readBytes m start (min k n) := by
  simp [readBytes, ← List.map_take, List.take_range]

theorem cyclicRead_length (cap : Nat) (m : Nat → Nat) (start n : Nat) :
    (cyclicRead cap m start n).length = n := by
  simp [cyclicRead]

theorem cyclicRead_congr (cap : Nat) (m m2 : Nat → Nat) (start n : Nat)
    (h : ∀ j, j < n → m2 ((start + j) % cap) = m ((start + j) % cap)) :
    cyclicRead cap m2 start n = cyclicRead cap m start n := by
  unfold cyclicRead
  exact List.map_congr_left fun j hj => h j (List.mem_range.mp hj)

theorem cyclicRead_split (cap : Nat) (m : Nat → Nat) (start a b : Nat) :
    cyclicRead cap m start (a + b)
      = cyclicRead cap m start a ++ cyclicRead cap m ((start + a) % cap) b := by
  unfold cyclicRead
  rw [List.range_add, List.map_append, List.map_map]
  congr 1
  apply List.map_congr_left
  intro j _
  show m ((start + (a + j)) % cap) = m (((start + a) % cap + j) % cap)
  rw [Nat.mod_add_mod, Nat.add_assoc]

theorem cyclicRead_write_self (cap : Nat) (m : Nat → Nat) (start : Nat) (bs : List Nat)
    (h : start + bs.length ≤ cap) :
    cyclicRead cap (writeBytesAt m start bs) start bs.length = bs := by
  apply List.ext_getElem?
  intro k
  by_cases hk : k < bs.length
  · rw [cyclicRead, List.getElem?_map, List.getElem?_range hk]
    have hlt : start + k < cap := by omega
    have hget := writeBytesAt_in m start bs (start + k) (by omega) (by omega)
    have hidx : start + k - start = k := by omega
    rw [List.getElem?_eq_getElem hk]
    show some (writeBytesAt m start bs ((start + k) % cap)) = _
    rw [Nat.mod_eq_of_lt hlt, hget, hidx, List.getD_eq_getElem bs 0 hk]
  · have h1 : (cyclicRead cap (writeBytesAt m start bs) start bs.length).length ≤ k := by
      rw [cyclicRead_length]; omega
    rw [List.getElem?_eq_none h1, List.getElem?_eq_none (by omega)]

theorem cyclicRead_write_self2 (cap : Nat) (m : Nat → Nat) (start n : Nat) (bs : List Nat)
    (h : start + n ≤ cap) (hn : bs.length = n) :
    cyclicRead cap (writeBytesAt m start bs) start n = bs := by
  subst hn
  exact cyclicRead_write_self cap m start bs h

theorem readBytes_eq_cyclicRead (cap : Nat) (m : Nat → Nat) (start n : Nat)
    (h : start + n ≤ cap) : readBytes m start n = cyclicRead cap m start n := by
  unfold readBytes cyclicRead
  apply List.map_congr_left
  intro j hj
  have hj' : j < n := List.mem_range.mp hj
  rw [Nat.mod_eq_of_lt (by omega)]

/-! Branch equations for the capture callback. -/

theorem total_reduce (len : Nat) (h : len ≤ 65525) :
    (HEADER_SIZE + len % 65536) % 65536 = HEADER_SIZE + len := by
  have h1 : len % 65536 = len := Nat.mod_eq_of_lt (by omega)
  rw [h1]
  exact Nat.mod_eq_of_lt (by simp [HEADER_SIZE]; omega)

theorem wifi_csi_cb_nullbuf (cap now : Nat) (st : RxState) (i : CsiInfo)
    (h : i.buf = none) : wifi_csi_cb cap (some i) now st = st := by
  simp [wifi_csi_cb, h]

theorem wifi_csi_cb_invalid (cap now : Nat) (st : RxState) (i : CsiInfo)
    (h : validInfo i = false) : wifi_csi_cb cap (some i) now st = st := by
  cases hb : i.buf with
  | none => exact wifi_csi_cb_nullbuf cap now st i hb
  | some src =>
    have hlen : i.len = 0 := by
      simp [validInfo, hb] at h
      exact h
    simp [wifi_csi_cb, hb, hlen]

theorem wifi_csi_cb_rejected (cap now : Nat) (st : RxState) (i : CsiInfo) (src : Nat → Nat)
    (hb : i.buf = some src) (hlen0 : i.len ≠ 0)
    (hrej : (st.writeHead + (HEADER_SIZE + i.len % 65536) % 65536) % cap = st.readHead) :
    wifi_csi_cb cap (some i) now st = { st with packetCount := st.packetCount + 1 } := by
  simp only [wifi_csi_cb, hb]
  rw [if_neg hlen0, if_pos hrej]

theorem wifi_csi_cb_accepted_contig (cap now : Nat) (st : RxState) (i : CsiInfo) (src : Nat → Nat)
    (hb : i.buf = some src) (hlen0 : i.len ≠ 0)
    (hacc : (st.writeHead + (HEADER_SIZE + i.len % 65536) % 65536) % cap ≠ st.readHead)
    (hfit : st.writeHead + (HEADER_SIZE + i.len % 65536) % 65536 ≤ cap) :
    wifi_csi_cb cap (some i) now st =
      { st with
        packetCount := st.packetCount + 1
        buffer := writeBytesAt
            (writeBytesAt st.buffer st.writeHead
              (encodeHeader (i.len % 65536) i.rssi i.channel now))
            (st.writeHead + HEADER_SIZE) (readBytes src 0 (i.len % 65536))
        writeHead := (st.writeHead + (HEADER_SIZE + i.len % 65536) % 65536) % cap } := by
  simp only [wifi_csi_cb, hb]
  rw [if_neg hlen0, if_neg hacc, if_pos hfit]

theorem wifi_csi_cb_accepted_wrap (cap now : Nat) (st : RxState) (i : CsiInfo) (src : Nat → Nat)
    (hb : i.buf = some src) (hlen0 : i.len ≠ 0)
    (hacc : (st.writeHead + (HEADER_SIZE + i.len % 65536) % 65536) % cap ≠ st.readHead)
    (hnofit : ¬ st.writeHead + (HEADER_SIZE + i.len % 65536) % 65536 ≤ cap) :
    wifi_csi_cb cap (some i) now st =
      { st with
        packetCount := st.packetCount + 1
        buffer := writeBytesAt st.buffer st.writeHead
            (encodeHeader (i.len % 65536) i.rssi i.channel now)
        writeHead := (st.writeHead + (HEADER_SIZE + i.len % 65536) % 65536) % cap } := by
  simp only [wifi_csi_cb, hb]
  rw [if_neg hlen0, if_neg hacc, if_neg hnofit]

theorem wifi_csi_cb_packetCount (cap now : Nat) (st : RxState) (i : CsiInfo)
    (h : validInfo i = true) :
    (wifi_csi_cb cap (some i) now st).packetCount = st.packetCount + 1 := by
  obtain ⟨src, hb⟩ := Option.isSome_iff_exists.mp (Bool.and_elim_left h)
  have hlen0 : i.len ≠ 0 := of_decide_eq_true (Bool.and_elim_right h)
  simp only [wifi_csi_cb, hb]
  rw [if_neg hlen0]
  split
  · rfl
  · split <;> rfl

theorem appendAccepted_iff (cap : Nat) (st : RxState) (i : CsiInfo) (src : Nat → Nat)
    (hb : i.buf = some src) (hlen0 : i.len ≠ 0) :
    appendAccepted cap i st = true ↔
      (st.writeHead + (HEADER_SIZE + i.len % 65536) % 65536) % cap ≠ st.readHead := by
  simp [appendAccepted, validInfo, hb, hlen0]

theorem usb_flush_iter_packetCount (cap threshold chunkSize a : Nat) (st : RxState) :
    (usb_flush_iter cap threshold chunkSize a st).state.packetCount = st.packetCount := by
  simp only [usb_flush_iter]
  split
  · split <;> rfl
  · rfl

/-! The append step under the no-wraparound / no-overrun side conditions. -/

theorem append_step_accepted
    (cap now : Nat) (st : RxState) (i : CsiInfo) (src : Nat → Nat)
    (hb : i.buf = some src) (hlen0 : i.len ≠ 0) (hlen : i.len ≤ 65525)
    (hr : st.readHead < cap) (hw : st.writeHead < cap)
    (hfit : st.writeHead + (HEADER_SIZE + i.len) ≤ cap)
    (hroom : availableBytes cap st + (HEADER_SIZE + i.len) ≤ cap)
    (hacc : (st.writeHead + (HEADER_SIZE + i.len)) % cap ≠ st.readHead) :
    (wifi_csi_cb cap (some i) now st).readHead = st.readHead ∧
    (wifi_csi_cb cap (some i) now st).writeHead < cap ∧
    (wifi_csi_cb cap (some i) now st).packetCount = st.packetCount + 1 ∧
    logicalBytes cap (wifi_csi_cb cap (some i) now st)
      = logicalBytes cap st ++ frameBytesOf i now := by
  have hH : HEADER_SIZE = 10 := rfl
  have hT : (HEADER_SIZE + i.len % 65536) % 65536 = HEADER_SIZE + i.len := total_reduce i.len hlen
  have hdl : i.len % 65536 = i.len := Nat.mod_eq_of_lt (by omega)
  have hcap : 0 < cap := by omega
  have hcb2 : wifi_csi_cb cap (some i) now st =
      { st with
        packetCount := st.packetCount + 1
        buffer := writeBytesAt
            (writeBytesAt st.buffer st.writeHead (encodeHeader i.len i.rssi i.channel now))
            (st.writeHead + HEADER_SIZE) (readBytes src 0 i.len)
        writeHead := (st.writeHead + (HEADER_SIZE + i.len)) % cap } := by
    rw [wifi_csi_cb_accepted_contig cap now st i src hb hlen0 (by rw [hT]; exact hacc)
      (by rw [hT]; exact hfit), hT, hdl]
  have hhl : (encodeHeader i.len i.rssi i.channel now).length = HEADER_SIZE :=
    encodeHeader_length i.len i.rssi i.channel now
  have hpl : (readBytes src 0 i.len).length = i.len := readBytes_length src 0 i.len
  have hav : availableBytes cap st =
      if st.writeHead ≥ st.readHead then st.writeHead - st.readHead
      else cap - st.readHead + st.writeHead := rfl
  have hkey1 : (st.readHead + availableBytes cap st) % cap = st.writeHead := by
    rcases le_or_lt st.readHead st.writeHead with hge | hlt
    · rw [if_pos hge] at hav
      have h1 : st.readHead + availableBytes cap st = st.writeHead := by omega
      rw [h1, Nat.mod_eq_of_lt hw]
    · rw [if_neg (by omega)] at hav
      have h1 : st.readHead + availableBytes cap st = cap + st.writeHead := by omega
      rw [h1, Nat.add_mod_left, Nat.mod_eq_of_lt hw]
  have hkey2 : ∀ j, j < availableBytes cap st →
      (st.readHead + j) % cap < st.writeHead ∨
      st.writeHead + (HEADER_SIZE + i.len) ≤ (st.readHead + j) % cap := by
    intro j hj
    rcases le_or_lt st.readHead st.writeHead with hge | hlt
    · rw [if_pos hge] at hav
      rw [Nat.mod_eq_of_lt (by omega)]
      left; omega
    · rw [if_neg (by omega)] at hav
      rcases Nat.lt_or_ge (st.readHead + j) cap with h1 | h2
      · rw [Nat.mod_eq_of_lt h1]; right; omega
      · have h3 : (st.readHead + j) % cap = st.readHead + j - cap := by
          rw [Nat.mod_eq_sub_mod h2, Nat.mod_eq_of_lt (by omega)]
        rw [h3]; left; omega
  have hpres : ∀ j, j < availableBytes cap st →
      (wifi_csi_cb cap (some i) now st).buffer ((st.readHead + j) % cap)
        = st.buffer ((st.readHead + j) % cap) := by
    intro j hj
    have hbuf : (wifi_csi_cb cap (some i) now st).buffer = writeBytesAt
        (writeBytesAt st.buffer st.writeHead (encodeHeader i.len i.rssi i.channel now))
        (st.writeHead + HEADER_SIZE) (readBytes src 0 i.len) := by rw [hcb2]
    rw [hbuf]
    rcases hkey2 j hj with hlo | hhi
    · rw [writeBytesAt_lt _ _ _ _ (by omega), writeBytesAt_lt _ _ _ _ hlo]
    · rw [writeBytesAt_ge _ _ _ _ (by rw [hpl]; omega), writeBytesAt_ge _ _ _ _ (by rw [hhl]; omega)]
  have hav2 : availableBytes cap (wifi_csi_cb cap (some i) now st)
      = availableBytes cap st + (HEADER_SIZE + i.len) := by
    rw [hcb2]
    show (if (st.writeHead + (HEADER_SIZE + i.len)) % cap ≥ st.readHead
        then (st.writeHead + (HEADER_SIZE + i.len)) % cap - st.readHead
        else cap - st.readHead + (st.writeHead + (HEADER_SIZE + i.len)) % cap)
      = availableBytes cap st + (HEADER_SIZE + i.len)
    rcases eq_or_lt_of_le hfit with heq | hltc
    · have hmod : (st.writeHead + (HEADER_SIZE + i.len)) % cap = 0 := by
        rw [heq, Nat.mod_self]
      have hr0 : st.readHead ≠ 0 := by rw [hmod] at hacc; omega
      rw [hmod]
      rcases le_or_lt st.readHead st.writeHead with hge | hlt
      · rw [if_pos hge] at hav; rw [if_neg (by omega)]; omega
      · rw [if_neg (by omega)] at hav; rw [if_neg (by omega)]; omega
    · have hmod : (st.writeHead + (HEADER_SIZE + i.len)) % cap
          = st.writeHead + (HEADER_SIZE + i.len) := Nat.mod_eq_of_lt hltc
      rw [hmod]
      rcases le_or_lt st.readHead st.writeHead with hge | hlt
      · rw [if_pos hge] at hav; rw [if_pos (by omega)]; omega
      · rw [if_neg (by omega)] at hav
        have hwt : st.writeHead + (HEADER_SIZE + i.len) ≤ st.readHead := by omega
        rcases eq_or_lt_of_le hwt with heq2 | hlt2
        · rw [heq2] at hacc
          exact absurd (Nat.mod_eq_of_lt hr) hacc
        · rw [if_neg (by omega)]; omega
  refine ⟨by rw [hcb2], ?_, by rw [hcb2], ?_⟩
  · have : (wifi_csi_cb cap (some i) now st).writeHead
        = (st.writeHead + (HEADER_SIZE + i.len)) % cap := by rw [hcb2]
    rw [this]
    exact Nat.mod_lt _ hcap
  · have hr2 : (wifi_csi_cb cap (some i) now st).readHead = st.readHead := by rw [hcb2]
    have hm2 : (wifi_csi_cb cap (some i) now st).buffer = writeBytesAt
        (writeBytesAt st.buffer st.writeHead (encodeHeader i.len i.rssi i.channel now))
        (st.writeHead + HEADER_SIZE) (readBytes src 0 i.len) := by rw [hcb2]
    have hw10lt : st.writeHead + HEADER_SIZE < cap := by omega
    show cyclicRead cap (wifi_csi_cb cap (some i) now st).buffer
        (wifi_csi_cb cap (some i) now st).readHead
        (availableBytes cap (wifi_csi_cb cap (some i) now st))
      = logicalBytes cap st ++ frameBytesOf i now
    rw [hr2, hav2, cyclicRead_split, hkey1,
      cyclicRead_congr cap st.buffer (wifi_csi_cb cap (some i) now st).buffer
        st.readHead (availableBytes cap st) hpres]
    have hpart : cyclicRead cap (wifi_csi_cb cap (some i) now st).buffer
        st.writeHead (HEADER_SIZE + i.len)
        = encodeHeader i.len i.rssi i.channel now ++ readBytes src 0 i.len := by
      rw [cyclicRead_split]
      have hp2 : cyclicRead cap (wifi_csi_cb cap (some i) now st).buffer
          ((st.writeHead + HEADER_SIZE) % cap) i.len = readBytes src 0 i.len := by
        rw [Nat.mod_eq_of_lt hw10lt, hm2]
        exact cyclicRead_write_self2 cap _ _ _ _ (by omega) hpl
      have hp1 : cyclicRead cap (wifi_csi_cb cap (some i) now st).buffer
          st.writeHead HEADER_SIZE = encodeHeader i.len i.rssi i.channel now := by
        have hstep : ∀ j, j < HEADER_SIZE →
            (wifi_csi_cb cap (some i) now st).buffer ((st.writeHead + j) % cap)
              = (writeBytesAt st.buffer st.writeHead
                  (encodeHeader i.len i.rssi i.channel now)) ((st.writeHead + j) % cap) := by
          intro j hj
          rw [hm2, Nat.mod_eq_of_lt (by omega), writeBytesAt_lt _ _ _ _ (by omega)]
        rw [cyclicRead_congr cap _ _ _ _ hstep]
        exact cyclicRead_write_self2 cap _ _ _ _ (by omega) hhl
      rw [hp1, hp2]
    rw [hpart]
    have hfb : frameBytesOf i now
        = encodeHeader i.len i.rssi i.channel now ++ readBytes src 0 i.len := by
      simp [frameBytesOf, hb, hdl]
    rw [hfb, logicalBytes]

/-! The drain step: the transport-accepted prefix leaves the ring buffer,
everything else is untouched. -/

theorem sendLen_le (cap chunkSize : Nat) (st : RxState) (hr : st.readHead < cap) :
    sendLen cap chunkSize st ≤ availableBytes cap st ∧
    st.readHead + sendLen cap chunkSize st ≤ cap ∧
    sendLen cap chunkSize st ≤ chunkSize ⊔ availableBytes cap st := by
  simp only [sendLen]
  refine ⟨?_, ?_, ?_⟩ <;> (split_ifs <;> omega)

theorem drain_step_active
    (cap threshold chunkSize a : Nat) (st : RxState)
    (hr : st.readHead < cap) (hw : st.writeHead < cap)
    (hav : availableBytes cap st > threshold)
    (ha : a ≤ sendLen cap chunkSize st) :
    (usb_flush_iter cap threshold chunkSize a st).state.readHead = (st.readHead + a) % cap ∧
    (usb_flush_iter cap threshold chunkSize a st).state.writeHead = st.writeHead ∧
    (usb_flush_iter cap threshold chunkSize a st).state.buffer = st.buffer ∧
    (usb_flush_iter cap threshold chunkSize a st).state.packetCount = st.packetCount ∧
    a ≤ availableBytes cap st ∧
    st.readHead + a ≤ cap ∧
    availableBytes cap (usb_flush_iter cap threshold chunkSize a st).state
      = availableBytes cap st - a ∧
    (usb_flush_iter cap threshold chunkSize a st).sent = readBytes st.buffer st.readHead a ∧
    (usb_flush_iter cap threshold chunkSize a st).sent
        ++ logicalBytes cap (usb_flush_iter cap threshold chunkSize a st).state
      = logicalBytes cap st := by
  have hsl := sendLen_le cap chunkSize st hr
  have haav : a ≤ availableBytes cap st := le_trans ha hsl.1
  have hrac : st.readHead + a ≤ cap := by omega
  have hveq : availableBytes cap st =
      if st.writeHead ≥ st.readHead then st.writeHead - st.readHead
      else cap - st.readHead + st.writeHead := rfl
  rcases Nat.eq_zero_or_pos a with ha0 | hapos
  · subst ha0
    have hfl : usb_flush_iter cap threshold chunkSize 0 st =
        ⟨st, readBytes st.buffer st.readHead (sendLen cap chunkSize st), []⟩ := by
      simp only [usb_flush_iter, if_pos hav]
      rfl
    rw [hfl]
    refine ⟨?_, rfl, rfl, rfl, haav, hrac, ?_, ?_, ?_⟩
    · show st.readHead = (st.readHead + 0) % cap
      rw [Nat.add_zero, Nat.mod_eq_of_lt hr]
    · show availableBytes cap st = availableBytes cap st - 0
      omega
    · rfl
    · simp
  · have hfl : usb_flush_iter cap threshold chunkSize a st =
        ⟨{ st with readHead := (st.readHead + a) % cap },
          readBytes st.buffer st.readHead (sendLen cap chunkSize st),
          (readBytes st.buffer st.readHead (sendLen cap chunkSize st)).take a⟩ := by
      simp only [usb_flush_iter, if_pos hav, if_pos hapos]
    have hsent : (usb_flush_iter cap threshold chunkSize a st).sent
        = readBytes st.buffer st.readHead a := by
      rw [hfl]
      show (readBytes st.buffer st.readHead (sendLen cap chunkSize st)).take a = _
      rw [readBytes_take]
      congr 1
      omega
    have hav2 : availableBytes cap (usb_flush_iter cap threshold chunkSize a st).state
        = availableBytes cap st - a := by
      rw [hfl]
      show (if st.writeHead ≥ (st.readHead + a) % cap
          then st.writeHead - (st.readHead + a) % cap
          else cap - (st.readHead + a) % cap + st.writeHead)
        = availableBytes cap st - a
      rcases le_or_lt st.readHead st.writeHead with hge | hlt
      · rw [if_pos hge] at hveq
        have hlt2 : st.readHead + a < cap := by omega
        rw [Nat.mod_eq_of_lt hlt2]
        split_ifs <;> omega
      · rw [if_neg (by omega)] at hveq
        rcases Nat.lt_or_ge (st.readHead + a) cap with h1 | h2
        · rw [Nat.mod_eq_of_lt h1]
          split_ifs <;> omega
        · have h3 : st.readHead + a = cap := by omega
          rw [h3, Nat.mod_self]
          split_ifs <;> omega
    refine ⟨by rw [hfl], by rw [hfl], by rw [hfl], by rw [hfl], haav, hrac, hav2, hsent, ?_⟩
    rw [hsent]
    show readBytes st.buffer st.readHead a
        ++ cyclicRead cap (usb_flush_iter cap threshold chunkSize a st).state.buffer
            (usb_flush_iter cap threshold chunkSize a st).state.readHead
            (availableBytes cap (usb_flush_iter cap threshold chunkSize a st).state)
      = logicalBytes cap st
    rw [hav2]
    have hbuf : (usb_flush_iter cap threshold chunkSize a st).state.buffer = st.buffer := by
      rw [hfl]
    have hrh : (usb_flush_iter cap threshold chunkSize a st).state.readHead
        = (st.readHead + a) % cap := by rw [hfl]
    rw [hbuf, hrh, readBytes_eq_cyclicRead cap st.buffer st.readHead a hrac]
    have hsplit := cyclicRead_split cap st.buffer st.readHead a (availableBytes cap st - a)
    have haa : a + (availableBytes cap st - a) = availableBytes cap st := by omega
    rw [haa] at hsplit
    exact hsplit.symm

theorem drain_step_good
    (cap threshold chunkSize a : Nat) (st : RxState)
    (hr : st.readHead < cap) (hw : st.writeHead < cap)
    (hgood : goodOp cap threshold chunkSize st (Op.drain a) = true) :
    (usb_flush_iter cap threshold chunkSize a st).state.readHead < cap ∧
    (usb_flush_iter cap threshold chunkSize a st).state.writeHead < cap ∧
    (usb_flush_iter cap threshold chunkSize a st).state.packetCount = st.packetCount ∧
    (usb_flush_iter cap threshold chunkSize a st).sent
        ++ logicalBytes cap (usb_flush_iter cap threshold chunkSize a st).state
      = logicalBytes cap st := by
  have hcap : 0 < cap := by omega
  by_cases havail : availableBytes cap st > threshold
  · have ha : a ≤ sendLen cap chunkSize st := by
      simp only [goodOp, if_pos havail] at hgood
      exact of_decide_eq_true hgood
    have h := drain_step_active cap threshold chunkSize a st hr hw havail ha
    refine ⟨?_, ?_, h.2.2.2.1, h.2.2.2.2.2.2.2.2⟩
    · rw [h.1]
      exact Nat.mod_lt _ hcap
    · rw [h.2.1]
      exact hw
  · have hfl : usb_flush_iter cap threshold chunkSize a st = ⟨st, [], []⟩ := by
      simp only [usb_flush_iter, if_neg havail]
    rw [hfl]
    exact ⟨hr, hw, rfl, by simp⟩

/-! Trace-level invariants. -/

theorem appendAccepted_false_of_invalid (cap : Nat) (st : RxState) (i : CsiInfo)
    (h : validInfo i = false) : appendAccepted cap i st = false := by
  simp [appendAccepted, h]

theorem run_spec (cap threshold chunkSize : Nat) (ops : List Op) :
    ∀ st : RxState, st.readHead < cap → st.writeHead < cap →
      goodTrace cap threshold chunkSize st ops = true →
      (run cap threshold chunkSize st ops).state.readHead < cap ∧
      (run cap threshold chunkSize st ops).state.writeHead < cap ∧
      (run cap threshold chunkSize st ops).observed
          ++ logicalBytes cap (run cap threshold chunkSize st ops).state
        = logicalBytes cap st ++ ((run cap threshold chunkSize st ops).accepted).flatten := by
  induction ops with
  | nil =>
    intro st hr hw _
    refine ⟨hr, hw, ?_⟩
    simp [run]
  | cons op ops ih =>
    intro st hr hw hg
    have hg1 : goodOp cap threshold chunkSize st op = true ∧
        goodTrace cap threshold chunkSize (stepState cap threshold chunkSize op st) ops = true := by
      simpa [goodTrace, Bool.and_eq_true] using hg
    cases op with
    | append i now =>
      have hstep : stepState cap threshold chunkSize (Op.append i now) st
          = wifi_csi_cb cap (some i) now st := rfl
      rw [hstep] at hg1
      by_cases hv : validInfo i = true
      · obtain ⟨src, hb⟩ := Option.isSome_iff_exists.mp (Bool.and_elim_left hv)
        have hlen0 : i.len ≠ 0 := of_decide_eq_true (Bool.and_elim_right hv)
        have hgo := hg1.1
        simp only [goodOp, hb] at hgo
        rw [if_neg hlen0] at hgo
        simp only [Bool.and_eq_true, decide_eq_true_eq] at hgo
        obtain ⟨⟨hlen, hfit⟩, hroom⟩ := hgo
        by_cases hacc : appendAccepted cap i st = true
        · have hacc2 : (st.writeHead + (HEADER_SIZE + i.len)) % cap ≠ st.readHead := by
            have h2 := (appendAccepted_iff cap st i src hb hlen0).mp hacc
            rwa [total_reduce i.len hlen] at h2
          have hkey := append_step_accepted cap now st i src hb hlen0 hlen hr hw hfit hroom hacc2
          have hrest := ih (wifi_csi_cb cap (some i) now st)
            (by rw [hkey.1]; exact hr) hkey.2.1 hg1.2
          have hrun : run cap threshold chunkSize st (Op.append i now :: ops)
              = { run cap threshold chunkSize (wifi_csi_cb cap (some i) now st) ops with
                  accepted := frameBytesOf i now
                    :: (run cap threshold chunkSize (wifi_csi_cb cap (some i) now st) ops).accepted } := by
            simp only [run, if_pos hacc]
          rw [hrun]
          refine ⟨hrest.1, hrest.2.1, ?_⟩
          show (run cap threshold chunkSize (wifi_csi_cb cap (some i) now st) ops).observed
              ++ logicalBytes cap
                  (run cap threshold chunkSize (wifi_csi_cb cap (some i) now st) ops).state
            = logicalBytes cap st
              ++ (frameBytesOf i now
                  :: (run cap threshold chunkSize (wifi_csi_cb cap (some i) now st) ops).accepted).flatten
          rw [hrest.2.2, hkey.2.2.2]
          simp [List.flatten_cons, List.append_assoc]
        · have haccF : appendAccepted cap i st = false := by
            rcases Bool.eq_false_or_eq_true (appendAccepted cap i st) with h2 | h2
            · exact absurd h2 hacc
            · exact h2
          have hmod : (st.writeHead + (HEADER_SIZE + i.len % 65536) % 65536) % cap
              = st.readHead := by
            by_contra hne
            exact hacc ((appendAccepted_iff cap st i src hb hlen0).mpr hne)
          have hcb := wifi_csi_cb_rejected cap now st i src hb hlen0 hmod
          have hrest := ih (wifi_csi_cb cap (some i) now st)
            (by rw [hcb]; exact hr) (by rw [hcb]; exact hw) hg1.2
          have hlst : logicalBytes cap (wifi_csi_cb cap (some i) now st)
              = logicalBytes cap st := by
            rw [hcb]
            rfl
          have hrun : run cap threshold chunkSize st (Op.append i now :: ops)
              = { run cap threshold chunkSize (wifi_csi_cb cap (some i) now st) ops with
                  rejected :=
                    (run cap threshold chunkSize (wifi_csi_cb cap (some i) now st) ops).rejected
                      + 1 } := by
            simp only [run, haccF, hv]
            rfl
          rw [hrun]
          refine ⟨hrest.1, hrest.2.1, ?_⟩
          show (run cap threshold chunkSize (wifi_csi_cb cap (some i) now st) ops).observed
              ++ logicalBytes cap
                  (run cap threshold chunkSize (wifi_csi_cb cap (some i) now st) ops).state
            = logicalBytes cap st
              ++ ((run cap threshold chunkSize (wifi_csi_cb cap (some i) now st) ops).accepted).flatten
          rw [hrest.2.2, hlst]
      · have hvF : validInfo i = false := by
          rcases Bool.eq_false_or_eq_true (validInfo i) with h2 | h2
          · exact absurd h2 hv
          · exact h2
        have hcbeq : wifi_csi_cb cap (some i) now st = st := wifi_csi_cb_invalid cap now st i hvF
        have haccF : appendAccepted cap i st = false := appendAccepted_false_of_invalid cap st i hvF
        rw [hcbeq] at hg1
        have hrest := ih st hr hw hg1.2
        have hrun : run cap threshold chunkSize st (Op.append i now :: ops)
            = run cap threshold chunkSize (wifi_csi_cb cap (some i) now st) ops := by
          simp only [run, haccF, hvF]
          rfl
        rw [hrun, hcbeq]
        exact hrest
    | drain a =>
      have hstep : stepState cap threshold chunkSize (Op.drain a) st
          = (usb_flush_iter cap threshold chunkSize a st).state := rfl
      rw [hstep] at hg1
      have hkey := drain_step_good cap threshold chunkSize a st hr hw hg1.1
      have hrest := ih (usb_flush_iter cap threshold chunkSize a st).state hkey.1 hkey.2.1 hg1.2
      have hrun : run cap threshold chunkSize st (Op.drain a :: ops)
          = { run cap threshold chunkSize (usb_flush_iter cap threshold chunkSize a st).state ops with
              observed := (usb_flush_iter cap threshold chunkSize a st).sent
                ++ (run cap threshold chunkSize
                      (usb_flush_iter cap threshold chunkSize a st).state ops).observed } := by
        simp only [run]
      rw [hrun]
      refine ⟨hrest.1, hrest.2.1, ?_⟩
      show ((usb_flush_iter cap threshold chunkSize a st).sent
            ++ (run cap threshold chunkSize
                  (usb_flush_iter cap threshold chunkSize a st).state ops).observed)
          ++ logicalBytes cap
              (run cap threshold chunkSize
                (usb_flush_iter cap threshold chunkSize a st).state ops).state
        = logicalBytes cap st
          ++ ((run cap threshold chunkSize
                (usb_flush_iter cap threshold chunkSize a st).state ops).accepted).flatten
      rw [List.append_assoc, hrest.2.2, ← List.append_assoc, hkey.2.2.2]

theorem run_packetCount (cap threshold chunkSize : Nat) (ops : List Op) :
    ∀ st : RxState,
      (run cap threshold chunkSize st ops).state.packetCount
        = st.packetCount + (run cap threshold chunkSize st ops).accepted.length
          + (run cap threshold chunkSize st ops).rejected := by
  induction ops with
  | nil =>
    intro st
    simp [run]
  | cons op ops ih =>
    intro st
    cases op with
    | append i now =>
      by_cases hv : validInfo i = true
      · have hpc := wifi_csi_cb_packetCount cap now st i hv
        by_cases hacc : appendAccepted cap i st = true
        · have hrun : run cap threshold chunkSize st (Op.append i now :: ops)
              = { run cap threshold chunkSize (wifi_csi_cb cap (some i) now st) ops with
                  accepted := frameBytesOf i now
                    :: (run cap threshold chunkSize (wifi_csi_cb cap (some i) now st) ops).accepted } := by
            simp only [run, if_pos hacc]
          rw [hrun]
          have := ih (wifi_csi_cb cap (some i) now st)
          show (run cap threshold chunkSize (wifi_csi_cb cap (some i) now st) ops).state.packetCount
            = st.packetCount
              + (frameBytesOf i now
                  :: (run cap threshold chunkSize (wifi_csi_cb cap (some i) now st) ops).accepted).length
              + (run cap threshold chunkSize (wifi_csi_cb cap (some i) now st) ops).rejected
          rw [this, hpc]
          simp [List.length_cons]
          omega
        · have haccF : appendAccepted cap i st = false := by
            rcases Bool.eq_false_or_eq_true (appendAccepted cap i st) with h2 | h2
            · exact absurd h2 hacc
            · exact h2
          have hrun : run cap threshold chunkSize st (Op.append i now :: ops)
              = { run cap threshold chunkSize (wifi_csi_cb cap (some i) now st) ops with
                  rejected :=
                    (run cap threshold chunkSize (wifi_csi_cb cap (some i) now st) ops).rejected
                      + 1 } := by
            simp only [run, haccF, hv]
            rfl
          rw [hrun]
          have := ih (wifi_csi_cb cap (some i) now st)
          show (run cap threshold chunkSize (wifi_csi_cb cap (some i) now st) ops).state.packetCount
            = st.packetCount
              + (run cap threshold chunkSize (wifi_csi_cb cap (some i) now st) ops).accepted.length
              + ((run cap threshold chunkSize (wifi_csi_cb cap (some i) now st) ops).rejected + 1)
          rw [this, hpc]
          omega
      · have hvF : validInfo i = false := by
          rcases Bool.eq_false_or_eq_true (validInfo i) with h2 | h2
          · exact absurd h2 hv
          · exact h2
        have hcbeq : wifi_csi_cb cap (some i) now st = st := wifi_csi_cb_invalid cap now st i hvF
        have haccF : appendAccepted cap i st = false := appendAccepted_false_of_invalid cap st i hvF
        have hrun : run cap threshold chunkSize st (Op.append i now :: ops)
            = run cap threshold chunkSize (wifi_csi_cb cap (some i) now st) ops := by
          simp only [run, haccF, hvF]
          rfl
        rw [hrun, hcbeq]
        exact ih st
    | drain a =>
      have hpc := usb_flush_iter_packetCount cap threshold chunkSize a st
      have hrun : run cap threshold chunkSize st (Op.drain a :: ops)
          = { run cap threshold chunkSize (usb_flush_iter cap threshold chunkSize a st).state ops with
              observed := (usb_flush_iter cap threshold chunkSize a st).sent
                ++ (run cap threshold chunkSize
                      (usb_flush_iter cap threshold chunkSize a st).state ops).observed } := by
        simp only [run]
      rw [hrun]
      have := ih (usb_flush_iter cap threshold chunkSize a st).state
      show (run cap threshold chunkSize (usb_flush_iter cap threshold chunkSize a st).state ops).state.packetCount
        = st.packetCount
          + (run cap threshold chunkSize (usb_flush_iter cap threshold chunkSize a st).state ops).accepted.length
          + (run cap threshold chunkSize (usb_flush_iter cap threshold chunkSize a st).state ops).rejected
      rw [this, hpc]

/-- C10: the header prepended to every payload is exactly 10 bytes with no
padding, laid out as magic (2 bytes), payloadLength (2 bytes),
signalStrength (1 byte, two's complement), channelId (1 byte), timestamp
(4 bytes), all multi-byte integers little-endian: decoding the fixed
offsets little-endian recovers every field. -/
theorem c10_header_layout
    (len : Nat) (rssi : Int) (ch ts : Nat)
    (hlen : len < 65536) (hlo : -128 ≤ rssi) (hhi : rssi < 128)
    (hch : ch < 256) (hts : ts < 4294967296) :
    (encodeHeader len rssi ch ts).length = 10 ∧
    decodeLE ((encodeHeader len rssi ch ts).take 2) = MAGIC ∧
    decodeLE (((encodeHeader len rssi ch ts).drop 2).take 2) = len ∧
    (encodeHeader len rssi ch ts).getD 4 0 < 256 ∧
    (if (encodeHeader len rssi ch ts).getD 4 0 < 128
      then ((encodeHeader len rssi ch ts).getD 4 0 : Int)
      else ((encodeHeader len rssi ch ts).getD 4 0 : Int) - 256) = rssi ∧
    (encodeHeader len rssi ch ts).getD 5 0 = ch ∧
    decodeLE ((encodeHeader len rssi ch ts).drop 6) = ts := by
  have hb4 : (rssi % 256).toNat < 256 := by omega
  refine ⟨encodeHeader_length len rssi ch ts, ?_, ?_, hb4 , ?_, ?_, ?_⟩
  · simp [encodeHeader, toLE, decodeLE, MAGIC]
  · simp [encodeHeader, toLE, decodeLE, MAGIC]
    omega
  · simp [encodeHeader, toLE, MAGIC]
    split_ifs <;> omega
  · simp [encodeHeader, toLE, MAGIC]
    omega
  · simp [encodeHeader, toLE, decodeLE, MAGIC]
    omega

/-- C10 witness at len 384, rssi -60, channel 6, timestamp 0x12345678. -/
theorem c10_witness :
    (encodeHeader 384 (-60) 6 305419896).length = 10 ∧
    decodeLE ((encodeHeader 384 (-60) 6 305419896).take 2) = MAGIC ∧
    decodeLE (((encodeHeader 384 (-60) 6 305419896).drop 2).take 2) = 384 ∧
    (encodeHeader 384 (-60) 6 305419896).getD 4 0 < 256 ∧
    (if (encodeHeader 384 (-60) 6 305419896).getD 4 0 < 128
      then ((encodeHeader 384 (-60) 6 305419896).getD 4 0 : Int)
      else ((encodeHeader 384 (-60) 6 305419896).getD 4 0 : Int) - 256) = -60 ∧
    (encodeHeader 384 (-60) 6 305419896).getD 5 0 = 6 ∧
    decodeLE ((encodeHeader 384 (-60) 6 305419896).drop 6) = 305419896 :=
  c10_header_layout 384 (-60) 6 305419896 (by decide) (by decide) (by decide)
    (by decide) (by decide)

/-- C8: a null event descriptor, a null payload pointer, or a zero payload
length makes the capture callback a complete no-op: the state (buffer,
both cursors, counter) is returned unchanged. -/
theorem c8_malformed_noop (cap now : Nat) (st : RxState) (len : Nat) (rssi : Int)
    (ch : Nat) (src : Nat → Nat) :
    wifi_csi_cb cap none now st = st ∧
    wifi_csi_cb cap (some ⟨none, len, rssi, ch⟩) now st = st ∧
    wifi_csi_cb cap (some ⟨some src, 0, rssi, ch⟩) now st = st :=
  ⟨rfl, rfl, by simp [wifi_csi_cb]⟩

/-- C6: when the room check rejects a frame, the frame is dropped entirely:
no byte of the buffer and neither cursor changes, the (sole) packet counter
has been incremented for the observed frame, and the callback returns
normally (no error path exists). -/
theorem c6_full_drop
    (cap now : Nat) (st : RxState) (i : CsiInfo) (src : Nat → Nat)
    (hb : i.buf = some src) (hlen0 : i.len ≠ 0)
    (hfull : (st.writeHead + (HEADER_SIZE + i.len % 65536) % 65536) % cap = st.readHead) :
    (∀ j, (wifi_csi_cb cap (some i) now st).buffer j = st.buffer j) ∧
    (wifi_csi_cb cap (some i) now st).writeHead = st.writeHead ∧
    (wifi_csi_cb cap (some i) now st).readHead = st.readHead ∧
    (wifi_csi_cb cap (some i) now st).packetCount = st.packetCount + 1 := by
  have hcb := wifi_csi_cb_rejected cap now st i src hb hlen0 hfull
  rw [hcb]
  exact ⟨fun j => rfl, rfl, rfl, rfl⟩

/-- C6 witness: capacity 20 and a 20-byte frame from the empty state is
rejected with no mutation beyond the packet counter. -/
theorem c6_witness :
    (wifi_csi_cb 20 (some ⟨some fun _ => 5, 10, -1, 6⟩) 0 initState).writeHead
        = initState.writeHead ∧
    (wifi_csi_cb 20 (some ⟨some fun _ => 5, 10, -1, 6⟩) 0 initState).readHead
        = initState.readHead ∧
    (wifi_csi_cb 20 (some ⟨some fun _ => 5, 10, -1, 6⟩) 0 initState).packetCount
        = initState.packetCount + 1 ∧
    (wifi_csi_cb 20 (some ⟨some fun _ => 5, 10, -1, 6⟩) 0 initState).buffer 0
        = initState.buffer 0 := by
  have h := c6_full_drop 20 0 initState ⟨some fun _ => 5, 10, -1, 6⟩ (fun _ => 5) rfl
    (by decide) (by decide)
  exact ⟨h.2.1, h.2.2.1, h.2.2.2, h.1 0⟩

/-- C2: when an accepted frame does not fit before the physical end of the
backing store, the callback stores only the 10 header bytes contiguously at
the write cursor (no payload byte is stored anywhere: every cell outside
those ten is unchanged) and still advances the write cursor by the full
frame size modulo the capacity. -/
theorem c2_wraparound_header_only
    (cap now : Nat) (st : RxState) (i : CsiInfo) (src : Nat → Nat)
    (hb : i.buf = some src) (hlen0 : i.len ≠ 0) (hlen : i.len ≤ 65525)
    (hacc : (st.writeHead + (HEADER_SIZE + i.len)) % cap ≠ st.readHead)
    (hwrap : cap < st.writeHead + (HEADER_SIZE + i.len)) :
    (∀ j, j < st.writeHead ∨ st.writeHead + HEADER_SIZE ≤ j →
        (wifi_csi_cb cap (some i) now st).buffer j = st.buffer j) ∧
    (∀ j, j < HEADER_SIZE →
        (wifi_csi_cb cap (some i) now st).buffer (st.writeHead + j)
          = (encodeHeader i.len i.rssi i.channel now).getD j 0) ∧
    (wifi_csi_cb cap (some i) now st).writeHead
        = (st.writeHead + (HEADER_SIZE + i.len)) % cap ∧
    (wifi_csi_cb cap (some i) now st).readHead = st.readHead ∧
    (wifi_csi_cb cap (some i) now st).packetCount = st.packetCount + 1 := by
  have hT := total_reduce i.len hlen
  have hdl : i.len % 65536 = i.len := Nat.mod_eq_of_lt (by omega)
  have hcb : wifi_csi_cb cap (some i) now st =
      { st with
        packetCount := st.packetCount + 1
        buffer := writeBytesAt st.buffer st.writeHead (encodeHeader i.len i.rssi i.channel now)
        writeHead := (st.writeHead + (HEADER_SIZE + i.len)) % cap } := by
    rw [wifi_csi_cb_accepted_wrap cap now st i src hb hlen0 (by rw [hT]; exact hacc)
      (by rw [hT]; omega), hT, hdl]
  have hhl : (encodeHeader i.len i.rssi i.channel now).length = HEADER_SIZE :=
    encodeHeader_length i.len i.rssi i.channel now
  rw [hcb]
  refine ⟨?_, ?_, rfl, rfl, rfl⟩
  · intro j hj
    show writeBytesAt st.buffer st.writeHead
        (encodeHeader i.len i.rssi i.channel now) j = st.buffer j
    rcases hj with h | h
    · exact writeBytesAt_lt _ _ _ _ h
    · exact writeBytesAt_ge _ _ _ _ (by rw [hhl]; omega)
  · intro j hj
    show writeBytesAt st.buffer st.writeHead
        (encodeHeader i.len i.rssi i.channel now) (st.writeHead + j)
      = (encodeHeader i.len i.rssi i.channel now).getD j 0
    rw [writeBytesAt_in _ _ _ _ (by omega) (by rw [hhl]; omega)]
    congr 1
    omega

/-- C2 witness: capacity 32, write cursor 20, a 26-byte frame (16-byte
payload): only offsets 20..29 change (header bytes), cells 19 and 31 are
untouched, the write cursor jumps to (20+26) mod 32 = 14. -/
theorem c2_witness :
    (wifi_csi_cb 32 (some ⟨some fun j => j + 1, 16, -1, 6⟩) 0
        ⟨fun _ => 0, 20, 0, 0⟩).buffer 31 = 0 ∧
    (wifi_csi_cb 32 (some ⟨some fun j => j + 1, 16, -1, 6⟩) 0
        ⟨fun _ => 0, 20, 0, 0⟩).buffer 19 = 0 ∧
    (wifi_csi_cb 32 (some ⟨some fun j => j + 1, 16, -1, 6⟩) 0
        ⟨fun _ => 0, 20, 0, 0⟩).buffer 25 = (encodeHeader 16 (-1) 6 0).getD 5 0 ∧
    (wifi_csi_cb 32 (some ⟨some fun j => j + 1, 16, -1, 6⟩) 0
        ⟨fun _ => 0, 20, 0, 0⟩).writeHead = 14 ∧
    (wifi_csi_cb 32 (some ⟨some fun j => j + 1, 16, -1, 6⟩) 0
        ⟨fun _ => 0, 20, 0, 0⟩).readHead = 0 ∧
    (wifi_csi_cb 32 (some ⟨some fun j => j + 1, 16, -1, 6⟩) 0
        ⟨fun _ => 0, 20, 0, 0⟩).packetCount = 1 := by
  have h := c2_wraparound_header_only 32 0 ⟨fun _ => 0, 20, 0, 0⟩
    ⟨some fun j => j + 1, 16, -1, 6⟩ (fun j => j + 1) rfl (by decide) (by decide)
    (by decide) (by decide)
  exact ⟨h.1 31 (Or.inr (by decide)), h.1 19 (Or.inl (by decide)), h.2.1 5 (by decide),
    h.2.2.1.trans (by decide), h.2.2.2.1, h.2.2.2.2⟩

/-- C7: in an iteration that offers a chunk, if the transport accepts
a ≤ offered bytes (including 0 on timeout), the read cursor advances by
exactly a modulo the capacity, no buffer byte changes, and the unaccepted
bytes remain available: the remaining logical content is exactly the old
one with the first a bytes removed. -/
theorem c7_short_write
    (cap threshold chunkSize a : Nat) (st : RxState)
    (hr : st.readHead < cap) (hw : st.writeHead < cap)
    (hav : availableBytes cap st > threshold)
    (ha : a ≤ sendLen cap chunkSize st) :
    (usb_flush_iter cap threshold chunkSize a st).state.readHead = (st.readHead + a) % cap ∧
    (usb_flush_iter cap threshold chunkSize a st).state.writeHead = st.writeHead ∧
    (∀ j, (usb_flush_iter cap threshold chunkSize a st).state.buffer j = st.buffer j) ∧
    availableBytes cap (usb_flush_iter cap threshold chunkSize a st).state
      = availableBytes cap st - a ∧
    logicalBytes cap (usb_flush_iter cap threshold chunkSize a st).state
      = (logicalBytes cap st).drop a := by
  have h := drain_step_active cap threshold chunkSize a st hr hw hav ha
  refine ⟨h.1, h.2.1, fun j => by rw [h.2.2.1], h.2.2.2.2.2.2.1, ?_⟩
  have hslen : (usb_flush_iter cap threshold chunkSize a st).sent.length = a := by
    rw [h.2.2.2.2.2.2.2.1, readBytes_length]
  rw [← h.2.2.2.2.2.2.2.2, List.drop_left' hslen]

/-- C7 witness, the spec scenario: 250 bytes available, staging chunk 100,
transport accepts 40: the read cursor advances by exactly 40 and the next
iteration sees 210 bytes. -/
theorem c7_witness :
    (usb_flush_iter 1024 128 100 40 ⟨fun _ => 0, 250, 0, 0⟩).state.readHead = 40 ∧
    (usb_flush_iter 1024 128 100 40 ⟨fun _ => 0, 250, 0, 0⟩).state.writeHead = 250 ∧
    availableBytes 1024 (usb_flush_iter 1024 128 100 40 ⟨fun _ => 0, 250, 0, 0⟩).state = 210 ∧
    logicalBytes 1024 (usb_flush_iter 1024 128 100 40 ⟨fun _ => 0, 250, 0, 0⟩).state
      = (logicalBytes 1024 ⟨fun _ => 0, 250, 0, 0⟩).drop 40 := by
  have h := c7_short_write 1024 128 100 40 ⟨fun _ => 0, 250, 0, 0⟩ (by decide) (by decide)
    (by decide) (by decide)
  exact ⟨h.1.trans (by decide), h.2.1, h.2.2.2.1.trans (by decide), h.2.2.2.2⟩

/-- C9: the available-byte count is the forward cyclic distance from the
read cursor to the write cursor; an offering iteration stages a contiguous
chunk of min(staging size, available) bytes starting at the read cursor,
clipped at the physical end of the store; staging itself mutates neither
cursor (a zero-accept iteration returns the state unchanged). -/
theorem c9_peek_contract
    (cap threshold chunkSize a : Nat) (st : RxState)
    (hr : st.readHead < cap) (hw : st.writeHead < cap)
    (hav : availableBytes cap st > threshold) :
    availableBytes cap st = (cap + st.writeHead - st.readHead) % cap ∧
    (usb_flush_iter cap threshold chunkSize a st).offered.length
      = min (min (availableBytes cap st) chunkSize) (cap - st.readHead) ∧
    (∀ j, j < (usb_flush_iter cap threshold chunkSize a st).offered.length →
        (usb_flush_iter cap threshold chunkSize a st).offered.getD j 0
          = st.buffer (st.readHead + j)) ∧
    st.readHead + (usb_flush_iter cap threshold chunkSize a st).offered.length ≤ cap ∧
    (usb_flush_iter cap threshold chunkSize a st).state.writeHead = st.writeHead ∧
    (∀ j, (usb_flush_iter cap threshold chunkSize a st).state.buffer j = st.buffer j) ∧
    (a = 0 → (usb_flush_iter cap threshold chunkSize a st).state = st) := by
  have hveq : availableBytes cap st =
      if st.writeHead ≥ st.readHead then st.writeHead - st.readHead
      else cap - st.readHead + st.writeHead := rfl
  have hofr : (usb_flush_iter cap threshold chunkSize a st).offered
      = readBytes st.buffer st.readHead (sendLen cap chunkSize st) := by
    simp only [usb_flush_iter, if_pos hav]
    split <;> rfl
  have hslm : sendLen cap chunkSize st
      = min (min (availableBytes cap st) chunkSize) (cap - st.readHead) := by
    simp only [sendLen]
    split_ifs <;> omega
  have hsl := sendLen_le cap chunkSize st hr
  refine ⟨?_, ?_, ?_, ?_, ?_, ?_, ?_⟩
  · rcases le_or_lt st.readHead st.writeHead with hge | hlt
    · rw [if_pos hge] at hveq
      have h1 : cap + st.writeHead - st.readHead = cap + (st.writeHead - st.readHead) := by
        omega
      rw [h1, Nat.add_mod_left, Nat.mod_eq_of_lt (by omega)]
      omega
    · rw [if_neg (by omega)] at hveq
      rw [Nat.mod_eq_of_lt (by omega)]
      omega
  · rw [hofr, readBytes_length, hslm]
  · intro j hj
    rw [hofr, readBytes_length] at hj
    rw [hofr, readBytes_getD st.buffer st.readHead _ j hj]
  · rw [hofr, readBytes_length]
    exact hsl.2.1
  · simp only [usb_flush_iter, if_pos hav]
    split <;> rfl
  · intro j
    simp only [usb_flush_iter, if_pos hav]
    split <;> rfl
  · intro h0
    subst h0
    simp only [usb_flush_iter, if_pos hav]
    rw [if_neg (by omega)]

/-- C9 witness with wrapped occupancy: capacity 1024, read cursor 1000,
write cursor 100: 124 bytes available; the offered chunk is clipped to the
24 bytes before the physical end; a timed-out (0-byte) write leaves the
state unchanged. -/
theorem c9_witness :
    availableBytes 1024 (⟨fun _ => 0, 100, 1000, 0⟩ : RxState) = 124 ∧
    (usb_flush_iter 1024 64 8192 0 ⟨fun _ => 0, 100, 1000, 0⟩).offered.length = 24 ∧
    (usb_flush_iter 1024 64 8192 0 ⟨fun _ => 0, 100, 1000, 0⟩).offered.getD 3 0 = 0 ∧
    (usb_flush_iter 1024 64 8192 0 ⟨fun _ => 0, 100, 1000, 0⟩).state
      = (⟨fun _ => 0, 100, 1000, 0⟩ : RxState) := by
  have h := c9_peek_contract 1024 64 8192 0 ⟨fun _ => 0, 100, 1000, 0⟩ (by decide) (by decide)
    (by decide)
  refine ⟨h.1.trans (by decide), h.2.1.trans (by decide), ?_, h.2.2.2.2.2.2 rfl⟩
  exact (h.2.2.1 3 (by rw [h.2.1]; decide)).trans rfl

/-- C1 (evidence for the code bug): with capacity 1024 and 20-byte frames
from the empty state, appends 1..51 move the write cursor to 1020; the
forward cyclic distance from the write cursor to the read cursor is then
4 < 20, so the claim requires append 52 to fail — but the room check
(rejection only when the advanced write cursor equals the read cursor
exactly) accepts it, jumping the write cursor from 1020 past the read
cursor 0 to 16. -/
theorem c1_overrun_evidence :
    (appendIter 1024 c1ev 0 51 initState).writeHead = 1020 ∧
    (appendIter 1024 c1ev 0 51 initState).readHead = 0 ∧
    (1024 + (appendIter 1024 c1ev 0 51 initState).readHead
        - (appendIter 1024 c1ev 0 51 initState).writeHead) % 1024 = 4 ∧
    HEADER_SIZE + c1ev.len = 20 ∧
    (appendIter 1024 c1ev 0 52 initState).writeHead = 16 ∧
    (appendIter 1024 c1ev 0 52 initState).packetCount = 52 := by decide

/-- C3 (evidence for the code bug): at capacity BUFFER_SIZE = 122880, two
accepted captures (payload lengths 61427 and 61428) drive the write cursor
to 122875; a third capture (payload length 1) takes the wraparound branch,
whose contiguous 10-byte header store changes the byte at absolute index
122880 = BUFFER_SIZE — an index outside [0, BUFFER_SIZE), i.e. past the end
of `g_buffer`. -/
theorem c3_oob_evidence :
    (wifi_csi_cb BUFFER_SIZE (some c3evB) 0
        (wifi_csi_cb BUFFER_SIZE (some c3evA) 0 initState)).writeHead = 122875 ∧
    BUFFER_SIZE = 122880 ∧
    c3state.buffer 122880 = 3 ∧
    initState.buffer 122880 = 0 ∧
    c3state.writeHead = 6 := by decide

/-- C4 counterexample: on the trace `c4ops` (append, full drain, append of
a frame that straddles the physical end, drain) the bytes the transport
received are not even a prefix of the concatenation of the accepted
frames' bytes: at stream position 50 the consumer saw a stale 0 where the
second frame's first payload byte 7 belongs. -/
theorem c4_fifo_counterexample :
    c4out.accepted.length = 2 ∧
    c4out.observed.length = 64 ∧
    c4out.accepted.flatten.length = 80 ∧
    c4out.observed.getD 50 9 = 0 ∧
    c4out.accepted.flatten.getD 50 9 = 7 ∧
    ¬ c4out.observed <+: c4out.accepted.flatten := by decide

/-- C4 amended: provided every append fits before the physical end of the
backing store and within the free space (the two flagged write-path
defects cannot fire), the pipeline is FIFO: the bytes the transport
accepted, followed by the bytes still pending in the buffer, equal the
concatenation of the accepted frames' bytes in acceptance order. -/
theorem c4_fifo_amended (cap threshold chunkSize : Nat) (hcap : 0 < cap) (ops : List Op)
    (hg : goodTrace cap threshold chunkSize initState ops = true) :
    (run cap threshold chunkSize initState ops).observed
        ++ logicalBytes cap (run cap threshold chunkSize initState ops).state
      = ((run cap threshold chunkSize initState ops).accepted).flatten := by
  have h := run_spec cap threshold chunkSize ops initState hcap hcap hg
  have hinit : logicalBytes cap initState = [] := by
    simp [logicalBytes, availableBytes, cyclicRead, initState]
  rw [h.2.2, hinit]
  simp

/-- C4 witness: a concrete well-behaved trace (append 15 bytes, drain 10,
append 13 bytes) satisfies the side conditions and the FIFO equation. -/
theorem c4_witness :
    goodTrace 64 4 8192 initState c4wops = true ∧
    (run 64 4 8192 initState c4wops).observed
        ++ logicalBytes 64 (run 64 4 8192 initState c4wops).state
      = ((run 64 4 8192 initState c4wops).accepted).flatten :=
  ⟨by decide, c4_fifo_amended 64 4 8192 (by decide) c4wops (by decide)⟩

/-- C5 counterexample: a malformed invocation (null descriptor) does not
increment the packet counter, contradicting the claim that the observed
counter is incremented on every invocation. -/
theorem c5_counterexample :
    (wifi_csi_cb BUFFER_SIZE none 0 initState).packetCount = 0 ∧
    ¬ (wifi_csi_cb BUFFER_SIZE none 0 initState).packetCount
        = initState.packetCount + 1 := ⟨rfl, by decide⟩

/-- C5 amended: the single counter `g_packet_count` is incremented exactly
once per well-formed invocation, before the room check and regardless of
acceptance; malformed invocations leave it unchanged; no acceptance
counter exists, so over any trace from startup the counter equals the
number of accepted frames plus the number of well-formed rejected
frames. -/
theorem c5_packet_counter (cap threshold chunkSize : Nat) (ops : List Op) :
    (run cap threshold chunkSize initState ops).state.packetCount
      = (run cap threshold chunkSize initState ops).accepted.length
        + (run cap threshold chunkSize initState ops).rejected := by
  have h := run_packetCount cap threshold chunkSize ops initState
  have h0 : initState.packetCount = 0 := rfl
  omega
